import Mathlib

/-!
Verification of the envoy HTTP dispatch core.

This file embeds the routing, middleware-chain, context and server-lifecycle
logic of the envoy repository (crates `envoy` under `src/` and `envoy_http`
under `envoy_http/src/`) as executable Lean definitions and proves the
specification claims about them.

The path-pattern matcher itself lives in the external `routefinder` crate,
which is not part of the repository sources; its data model (segments,
captures) and its matching and tie-break behaviour are modelled from the
specification (spec.md sections 3 and 4.1).  Everything else is translated
from the Rust sources, file by file, as indicated next to each definition.
-/

namespace Envoy

/-! ## Path patterns and captures

Modelled from the spec: the `routefinder` pattern/captures data model used by
`envoy_http/src/router.rs` (`routefinder::{Captures, Router}`), which is not
part of the repository sources.  A route pattern is an ordered sequence of
segments: literal, named or anonymous one-segment capture (`:name` / `:`),
or trailing wildcard (`*name` / `*`).  An empty name encodes the anonymous
form. -/

inductive Segment : Type where
  | exact (s : String)
  | capture (name : String)
  | wildcard (name : String)
  deriving DecidableEq

abbrev Pattern := List Segment

/-- Modelled from the spec: `routefinder::Captures` — named bindings plus an
optional wildcard remainder. -/
structure Captures where
  entries : List (String × String)
  wildcard : Option String
  deriving DecidableEq

/-- Modelled from the spec: `Captures::get` returns the first binding for a
name. -/
def Captures.get (c : Captures) (key : String) : Option String :=
  c.entries.findSome? fun e => if e.1 = key then some e.2 else none

/-- Modelled from the spec: `Captures::default()` — no bindings, no
wildcard. -/
def Captures.empty : Captures := ⟨[], none⟩

/-! ## Path splitting

Modelled from the spec (section 4.2 `match`): the request path is split into
segments on `/`, ignoring empty segments (in particular a trailing slash:
`/foo/` and `/foo` compare equal for matching purposes). -/

/-- Split a character list on `/`, accumulating the current segment in
reverse. -/
def splitChars : List Char → List Char → List (List Char)
  | [], acc => [acc.reverse]
  | c :: rest, acc =>
    if c = '/' then acc.reverse :: splitChars rest [] else splitChars rest (c :: acc)

/-- The non-empty `/`-separated segments of a path. -/
def splitPath (p : String) : List String :=
  ((splitChars p.toList []).filter (fun l => l ≠ [])).map fun l => String.mk l

/-! ## Pattern compilation

Modelled from the spec (section 4.1): `compile` splits the pattern string
into segments, reading `:name` / `:` as a one-segment capture and `*name` /
`*` as a wildcard, and fails if a wildcard is followed by further segments. -/

def parseSeg (s : String) : Segment :=
  match s.toList with
  | '*' :: rest => Segment.wildcard (String.mk rest)
  | ':' :: rest => Segment.capture (String.mk rest)
  | _ => Segment.exact s

/-- A wildcard segment is only legal in final position. -/
def wildcardOk : List Segment → Bool
  | [] => true
  | Segment.wildcard _ :: rest => rest.isEmpty
  | _ :: rest => wildcardOk rest

def compile (pattern : String) : Option Pattern :=
  let segs := (splitPath pattern).map parseSeg
  if wildcardOk segs then some segs else none

/-! ## Matching

Modelled from the spec (section 4.1 `match`): literal segments must match
exactly; a capture consumes exactly one (non-empty) segment, binding it when
named; a wildcard consumes all remaining segments (possibly zero), the
remainder re-joined with `/`. -/

def matchSegs : List Segment → List String → Option Captures
  | [], [] => some ⟨[], none⟩
  | [], _ :: _ => none
  | Segment.exact s :: ps, seg :: rest =>
    if s = seg then matchSegs ps rest else none
  | Segment.exact _ :: _, [] => none
  | Segment.capture n :: ps, seg :: rest =>
    (matchSegs ps rest).map fun c =>
      if n = "" then c else ⟨(n, seg) :: c.entries, c.wildcard⟩
  | Segment.capture _ :: _, [] => none
  | Segment.wildcard n :: ps, segs =>
    if ps.isEmpty then
      let rest := String.intercalate "/" segs
      some ⟨if n = "" then [] else [(n, rest)], some rest⟩
    else none

/-- Match a compiled pattern against a request path. -/
def patMatch (pat : Pattern) (path : String) : Option Captures :=
  matchSegs pat (splitPath path)

/-! ## Specificity order

Modelled from the spec (section 4.1 tie-break rule): more specific —
more literal, fewer wildcard — patterns win, position by position; a literal
segment beats a capture, which beats a wildcard, at the same position.  Ties
between shape-identical patterns are broken by the segment texts, making the
order total and the selection deterministic and registration-order
independent. -/

def segRank : Segment → Nat
  | Segment.exact _ => 2
  | Segment.capture _ => 1
  | Segment.wildcard _ => 0

def segText : Segment → String
  | Segment.exact s => s
  | Segment.capture n => n
  | Segment.wildcard n => n

/-- Strict lexicographic order on character lists. -/
def charsLt : List Char → List Char → Bool
  | [], [] => false
  | [], _ :: _ => true
  | _ :: _, [] => false
  | a :: as, b :: bs => a < b || (a = b && charsLt as bs)

/-- Three-way comparison of strings through their character lists. -/
def strCmp (s t : String) : Ordering :=
  if charsLt s.toList t.toList then Ordering.lt
  else if s = t then Ordering.eq
  else Ordering.gt

/-- Three-way comparison of segments: first by kind (literal > capture >
wildcard), then by text. -/
def cmpSeg (a b : Segment) : Ordering :=
  if segRank a < segRank b then Ordering.lt
  else if segRank b < segRank a then Ordering.gt
  else strCmp (segText a) (segText b)

/-- Lexicographic three-way comparison of patterns; `gt` means the first
pattern is the more specific one.  When one pattern is exhausted while the
other continues, the exhausted one is the more specific: two patterns in
that situation can both match a path only when the continuation is a
trailing wildcard (the only segment matching zero path segments), and the
spec's tie-break says the fewer-wildcards / wildcard-absent pattern wins —
`/a` beats `/a/*` on a request for `/a`. -/
def cmpPat : Pattern → Pattern → Ordering
  | [], [] => Ordering.eq
  | [], _ :: _ => Ordering.gt
  | _ :: _, [] => Ordering.lt
  | a :: as, b :: bs =>
    match cmpSeg a b with
    | Ordering.eq => cmpPat as bs
    | o => o

/-! ## Per-method tables and best match

The table of one `routefinder::Router` is a collection of compiled patterns
with handlers; `best_match` returns the most specific matching entry.
Modelled from the spec (section 4.1). -/

abbrev Table (ε : Type) := List (Pattern × ε)

/-- One step of the best-match selection: keep the more specific of the
running best and the next matching entry. -/
def bestStep {ε : Type} (path : String) (acc : Option (Pattern × ε × Captures))
    (e : Pattern × ε) : Option (Pattern × ε × Captures) :=
  match patMatch e.1 path with
  | none => acc
  | some cs =>
    match acc with
    | none => some (e.1, e.2, cs)
    | some b => if cmpPat e.1 b.1 = Ordering.gt then some (e.1, e.2, cs) else acc

/-- The most specific entry of the table matching the path, together with its
captures. -/
def bestRoute {ε : Type} (t : Table ε) (path : String) : Option (Pattern × ε × Captures) :=
  t.foldl (bestStep path) none

/-! ## The Router

Translated from `envoy_http/src/router.rs`.  The router keeps one table per
HTTP method (a `HashMap<hyper::Method, MethodRouter>`, embedded as an
association list) plus an all-methods fallback table.  Handlers are kept
abstract in the type `ε`; the two synthetic endpoints `not_found_endpoint`
and `method_not_allowed` of `router.rs` are the extra constructors of
`EndpointRef`. -/

inductive Method : Type where
  | GET | HEAD | POST | PUT | DELETE | OPTIONS | CONNECT | PATCH | TRACE
  deriving DecidableEq

structure Router (ε : Type) where
  method_map : List (Method × Table ε)
  all_method_router : Table ε
  deriving DecidableEq

def Router.new {ε : Type} : Router ε := ⟨[], []⟩

/-- `HashMap::get` on the method map. -/
def mapGet {ε : Type} (m : List (Method × Table ε)) (k : Method) : Option (Table ε) :=
  m.findSome? fun e => if e.1 = k then some e.2 else none

/-- `method_map.entry(method).or_insert_with(MethodRouter::new).add(path, ep)`:
append the compiled entry to the method's table, creating the table first if
absent. -/
def mapAdd {ε : Type} : List (Method × Table ε) → Method → Pattern → ε → List (Method × Table ε)
  | [], m, pat, ep => [(m, [(pat, ep)])]
  | e :: rest, m, pat, ep =>
    if e.1 = m then (m, e.2 ++ [(pat, ep)]) :: rest else e :: mapAdd rest m pat ep

/-- `Router::add`; `none` models the `.unwrap()` panic on a malformed
pattern. -/
def Router.add {ε : Type} (r : Router ε) (path : String) (m : Method) (ep : ε) :
    Option (Router ε) :=
  (compile path).map fun pat => { r with method_map := mapAdd r.method_map m pat ep }

/-- `Router::add_all`; `none` models the `.unwrap()` panic on a malformed
pattern. -/
def Router.add_all {ε : Type} (r : Router ε) (path : String) (ep : ε) : Option (Router ε) :=
  (compile path).map fun pat =>
    { r with all_method_router := r.all_method_router ++ [(pat, ep)] }

/-- A routed handler: either a user-registered endpoint or one of the two
synthetic endpoints of `router.rs`. -/
inductive EndpointRef (ε : Type) : Type where
  | user (ep : ε)
  | notFoundEndpoint
  | methodNotAllowedEndpoint
  deriving DecidableEq

/-- The result of routing a URL (`router.rs`, `struct Selection`). -/
structure Selection (ε : Type) where
  endpoint : EndpointRef ε
  params : Captures
  deriving DecidableEq

/-- The `Router::route` cascade without the HEAD→GET retry branch: method
table, then all-methods table, then 405 if a different method's table
matches, else 404. -/
def Router.routeBase {ε : Type} (r : Router ε) (path : String) (m : Method) : Selection ε :=
  match (mapGet r.method_map m).bind (fun t => bestRoute t path) with
  | some sel => ⟨EndpointRef.user sel.2.1, sel.2.2⟩
  | none =>
    match bestRoute r.all_method_router path with
    | some sel => ⟨EndpointRef.user sel.2.1, sel.2.2⟩
    | none =>
      if r.method_map.any (fun e => e.1 ≠ m && (bestRoute e.2 path).isSome) then
        ⟨EndpointRef.methodNotAllowedEndpoint, Captures.empty⟩
      else
        ⟨EndpointRef.notFoundEndpoint, Captures.empty⟩

/-- `Router::route` (`envoy_http/src/router.rs`, lines 59–97): method table,
then all-methods table, then the HEAD→GET retry (`self.route(path, GET)`),
then 405 if a different method's table matches, else 404.  The source's
recursion runs at most once — the retry passes `GET`, which never takes the
HEAD branch — so it is written here as one unfolding, the retry being
`routeBase` with `GET` (for which it coincides with the full cascade). -/
def Router.route {ε : Type} (r : Router ε) (path : String) (m : Method) : Selection ε :=
  match (mapGet r.method_map m).bind (fun t => bestRoute t path) with
  | some sel => ⟨EndpointRef.user sel.2.1, sel.2.2⟩
  | none =>
    match bestRoute r.all_method_router path with
    | some sel => ⟨EndpointRef.user sel.2.1, sel.2.2⟩
    | none =>
      if m = Method.HEAD then
        r.routeBase path Method.GET
      else if r.method_map.any (fun e => e.1 ≠ m && (bestRoute e.2 path).isSome) then
        ⟨EndpointRef.methodNotAllowedEndpoint, Captures.empty⟩
      else
        ⟨EndpointRef.notFoundEndpoint, Captures.empty⟩

/-! ## Order facts about the specificity comparison -/

theorem charsLt_irrefl (l : List Char) : charsLt l l = false := by
  induction l with
  | nil => rfl
  | cons a as ih => simp [charsLt, ih]

theorem charsLt_asymm : ∀ {a b : List Char}, charsLt a b = true → charsLt b a = false
  | [], [], h => by simpa [charsLt] using h
  | [], _ :: _, _ => by simp [charsLt]
  | _ :: _, [], h => by simpa [charsLt] using h
  | a :: as, b :: bs, h => by
    simp only [charsLt, Bool.or_eq_true, Bool.and_eq_true, decide_eq_true_eq] at h
    simp only [charsLt, Bool.or_eq_false_iff, Bool.and_eq_false_iff, decide_eq_false_iff_not]
    rcases h with h1 | ⟨h2, h3⟩
    · exact ⟨lt_asymm h1, Or.inl fun hba => absurd h1 (by simp [hba])⟩
    · subst h2
      exact ⟨lt_irrefl _, Or.inr (charsLt_asymm h3)⟩

theorem charsLt_trans : ∀ {a b c : List Char},
    charsLt a b = true → charsLt b c = true → charsLt a c = true
  | [], [], _, h, _ => by simpa [charsLt] using h
  | [], _ :: _, [], _, h => by simpa [charsLt] using h
  | [], _ :: _, _ :: _, _, _ => by simp [charsLt]
  | _ :: _, [], _, h, _ => by simpa [charsLt] using h
  | _ :: _, _ :: _, [], _, h => by simpa [charsLt] using h
  | a :: as, b :: bs, c :: cs, h1, h2 => by
    simp only [charsLt, Bool.or_eq_true, Bool.and_eq_true, decide_eq_true_eq] at h1 h2 ⊢
    rcases h1 with h1 | ⟨h1e, h1r⟩
    · rcases h2 with h2 | ⟨h2e, h2r⟩
      · exact Or.inl (lt_trans h1 h2)
      · exact Or.inl (h2e ▸ h1)
    · subst h1e
      rcases h2 with h2 | ⟨h2e, h2r⟩
      · exact Or.inl h2
      · exact Or.inr ⟨h2e, charsLt_trans h1r h2r⟩

theorem charsLt_connex : ∀ {a b : List Char},
    charsLt a b = false → charsLt b a = false → a = b
  | [], [], _, _ => rfl
  | [], _ :: _, h, _ => by simpa [charsLt] using h
  | _ :: _, [], _, h => by simpa [charsLt] using h
  | a :: as, b :: bs, h1, h2 => by
    simp only [charsLt, Bool.or_eq_false_iff, Bool.and_eq_false_iff,
      decide_eq_false_iff_not] at h1 h2
    obtain ⟨hab, h1r⟩ := h1
    obtain ⟨hba, h2r⟩ := h2
    have heq : a = b := le_antisymm (le_of_not_lt hba) (le_of_not_lt hab)
    subst heq
    rcases h1r with h | h1r
    · exact absurd rfl h
    · rcases h2r with h | h2r
      · exact absurd rfl h
      · exact congrArg (a :: ·) (charsLt_connex h1r h2r)

theorem string_toList_inj {s t : String} (h : s.toList = t.toList) : s = t := by
  cases s; cases t; exact congrArg String.mk h

theorem strCmp_eq_iff {s t : String} : strCmp s t = Ordering.eq ↔ s = t := by
  unfold strCmp
  split
  · rename_i hlt
    constructor
    · intro h; exact absurd h (by simp)
    · intro h; subst h; simp [charsLt_irrefl] at hlt
  · split
    · rename_i h; simp [h]
    · rename_i h; simp [h]

theorem strCmp_gt_iff {s t : String} : strCmp s t = Ordering.gt ↔ strCmp t s = Ordering.lt := by
  unfold strCmp
  constructor
  · intro h
    split at h
    · exact absurd h (by simp)
    · split at h
      · exact absurd h (by simp)
      · rename_i hlt hne
        have hconn := charsLt_connex (a := s.toList) (b := t.toList) (by simpa using hlt)
        by_cases hts : charsLt t.toList s.toList = true
        · simp only [String.toList] at hts
          simp [hts]
        · exact absurd (string_toList_inj (hconn (by simpa using hts))) hne
  · intro h
    split at h
    · rename_i hlt
      have hs : charsLt s.toList t.toList = false := charsLt_asymm hlt
      have hne : s ≠ t := by
        intro he; subst he; simp [charsLt_irrefl] at hlt
      simp only [String.toList] at hs
      simp [hs, hne]
    · split at h <;> exact absurd h (by simp)

theorem strCmp_lt_trans {s t u : String} (h1 : strCmp s t = Ordering.lt)
    (h2 : strCmp t u = Ordering.lt) : strCmp s u = Ordering.lt := by
  unfold strCmp at h1 h2 ⊢
  split at h1
  · split at h2
    · rename_i ha hb
      have hc := charsLt_trans ha hb
      simp only [String.toList] at hc
      simp [hc]
    · split at h2 <;> exact absurd h2 (by simp)
  · split at h1 <;> exact absurd h1 (by simp)

theorem cmpSeg_eq_iff {a b : Segment} : cmpSeg a b = Ordering.eq ↔ a = b := by
  unfold cmpSeg
  split
  · rename_i hr
    constructor
    · intro h; exact absurd h (by simp)
    · intro h; subst h; exact absurd hr (lt_irrefl _)
  · split
    · rename_i hr
      constructor
      · intro h; exact absurd h (by simp)
      · intro h; subst h; exact absurd hr (lt_irrefl _)
    · rename_i h1 h2
      have hrank : segRank a = segRank b := le_antisymm (le_of_not_lt h2) (le_of_not_lt h1)
      rw [strCmp_eq_iff]
      cases a <;> cases b <;> simp_all [segRank, segText]

theorem cmpSeg_gt_iff {a b : Segment} : cmpSeg a b = Ordering.gt ↔ cmpSeg b a = Ordering.lt := by
  unfold cmpSeg
  rcases lt_trichotomy (segRank a) (segRank b) with h | h | h
  · simp [h, not_lt.mpr (le_of_lt h), lt_asymm h]
  · simp [h, lt_irrefl, strCmp_gt_iff]
  · simp [h, not_lt.mpr (le_of_lt h), lt_asymm h]

theorem cmpSeg_lt_trans {a b c : Segment} (h1 : cmpSeg a b = Ordering.lt)
    (h2 : cmpSeg b c = Ordering.lt) : cmpSeg a c = Ordering.lt := by
  unfold cmpSeg at h1 h2 ⊢
  by_cases hab : segRank a < segRank b
  · by_cases hbc : segRank b < segRank c
    · simp [lt_trans hab hbc]
    · rw [if_neg hbc] at h2
      by_cases hcb : segRank c < segRank b
      · rw [if_pos hcb] at h2; exact absurd h2 (by simp)
      · have hbce : segRank b = segRank c := le_antisymm (not_lt.mp hcb) (not_lt.mp hbc)
        have : segRank a < segRank c := by omega
        simp [this]
  · rw [if_neg hab] at h1
    by_cases hba : segRank b < segRank a
    · rw [if_pos hba] at h1; exact absurd h1 (by simp)
    · rw [if_neg hba] at h1
      have habe : segRank a = segRank b := le_antisymm (not_lt.mp hba) (not_lt.mp hab)
      by_cases hbc : segRank b < segRank c
      · have : segRank a < segRank c := by omega
        simp [this]
      · rw [if_neg hbc] at h2
        by_cases hcb : segRank c < segRank b
        · rw [if_pos hcb] at h2; exact absurd h2 (by simp)
        · rw [if_neg hcb] at h2
          have hbce : segRank b = segRank c := le_antisymm (not_lt.mp hcb) (not_lt.mp hbc)
          have hn1 : ¬ segRank a < segRank c := by omega
          have hn2 : ¬ segRank c < segRank a := by omega
          rw [if_neg hn1, if_neg hn2]
          exact strCmp_lt_trans h1 h2

theorem cmpPat_eq_iff : ∀ {p q : Pattern}, cmpPat p q = Ordering.eq ↔ p = q
  | [], [] => by simp [cmpPat]
  | [], _ :: _ => by simp [cmpPat]
  | _ :: _, [] => by simp [cmpPat]
  | a :: as, b :: bs => by
    unfold cmpPat
    rcases hab : cmpSeg a b with h | h | h
    · simp only []
      constructor
      · intro h; exact absurd h (by simp)
      · rintro ⟨⟩
        rw [cmpSeg_eq_iff.mpr rfl] at hab
        exact absurd hab (by simp)
    · rw [cmpSeg_eq_iff] at hab
      subst hab
      simpa using cmpPat_eq_iff (p := as) (q := bs)
    · simp only []
      constructor
      · intro h; exact absurd h (by simp)
      · rintro ⟨⟩
        rw [cmpSeg_eq_iff.mpr rfl] at hab
        exact absurd hab (by simp)

theorem cmpPat_gt_iff : ∀ {p q : Pattern}, cmpPat p q = Ordering.gt ↔ cmpPat q p = Ordering.lt
  | [], [] => by simp [cmpPat]
  | [], _ :: _ => by simp [cmpPat]
  | _ :: _, [] => by simp [cmpPat]
  | a :: as, b :: bs => by
    unfold cmpPat
    rcases hab : cmpSeg a b with h | h | h
    · have : cmpSeg b a = Ordering.gt := by
        rw [cmpSeg_gt_iff]; exact hab
      simp [this]
    · rw [cmpSeg_eq_iff] at hab
      subst hab
      rw [cmpSeg_eq_iff.mpr rfl]
      exact cmpPat_gt_iff (p := as) (q := bs)
    · have : cmpSeg b a = Ordering.lt := cmpSeg_gt_iff.mp hab
      simp [this]

theorem cmpPat_lt_trans : ∀ {p q r : Pattern}, cmpPat p q = Ordering.lt →
    cmpPat q r = Ordering.lt → cmpPat p r = Ordering.lt
  | [], [], _, h1, _ => by simpa [cmpPat] using h1
  | [], _ :: _, _, h1, _ => by simpa [cmpPat] using h1
  | _ :: _, [], [], _, h2 => by simpa [cmpPat] using h2
  | _ :: _, [], _ :: _, _, h2 => by simpa [cmpPat] using h2
  | _ :: _, _ :: _, [], _, _ => rfl
  | a :: as, b :: bs, c :: cs, h1, h2 => by
    unfold cmpPat at h1 h2 ⊢
    rcases hab : cmpSeg a b with _ | _ | _ <;> rw [hab] at h1
    · rcases hbc : cmpSeg b c with _ | _ | _ <;> rw [hbc] at h2
      · simp [cmpSeg_lt_trans hab hbc]
      · rw [cmpSeg_eq_iff] at hbc
        subst hbc
        simp [hab]
      · exact absurd h2 (by simp)
    · rw [cmpSeg_eq_iff] at hab
      subst hab
      revert h2
      rcases cmpSeg a c with _ | _ | _
      · intro h2; rfl
      · intro h2; exact cmpPat_lt_trans h1 h2
      · intro h2; exact absurd h2 (by simp)
    · exact absurd h1 (by simp)

theorem cmpPat_le_trans {p q r : Pattern} (h1 : cmpPat p q ≠ Ordering.gt)
    (h2 : cmpPat q r ≠ Ordering.gt) : cmpPat p r ≠ Ordering.gt := by
  rcases hpq : cmpPat p q with _ | _ | _
  · rcases hqr : cmpPat q r with _ | _ | _
    · simp [cmpPat_lt_trans hpq hqr]
    · rw [cmpPat_eq_iff] at hqr
      subst hqr
      simp [hpq]
    · exact absurd hqr h2
  · rw [cmpPat_eq_iff] at hpq
    subst hpq
    exact h2
  · exact absurd hpq h1

/-! ## Characterisation of the best-match fold -/

theorem bestFold_none_iff {ε : Type} (path : String) :
    ∀ (t : Table ε) (acc : Option (Pattern × ε × Captures)),
      t.foldl (bestStep path) acc = none ↔
        acc = none ∧ ∀ e ∈ t, patMatch e.1 path = none := by
  intro t
  induction t with
  | nil => intro acc; simp
  | cons e rest ih =>
    intro acc
    rw [List.foldl_cons, ih]
    rcases hm : patMatch e.1 path with _ | cs
    · simp [bestStep, hm]
    · have hsome : ∃ v, bestStep path acc e = some v := by
        rcases acc with _ | b
        · refine ⟨(e.1, e.2, cs), ?_⟩
          simp [bestStep, hm]
        · by_cases hgt : cmpPat e.1 b.1 = Ordering.gt
          · refine ⟨(e.1, e.2, cs), ?_⟩
            simp [bestStep, hm, hgt]
          · refine ⟨b, ?_⟩
            simp [bestStep, hm, hgt]
      obtain ⟨v, hv⟩ := hsome
      simp [hv, hm]

theorem bestFold_mem {ε : Type} (path : String) :
    ∀ (t : Table ε) (acc : Option (Pattern × ε × Captures)) (r : Pattern × ε × Captures),
      t.foldl (bestStep path) acc = some r →
      acc = some r ∨ ((r.1, r.2.1) ∈ t ∧ patMatch r.1 path = some r.2.2) := by
  intro t
  induction t with
  | nil => intro acc r h; exact Or.inl (by simpa using h)
  | cons e rest ih =>
    intro acc r h
    rw [List.foldl_cons] at h
    rcases ih (bestStep path acc e) r h with h1 | h1
    · rcases hm : patMatch e.1 path with _ | cs
      · rw [bestStep, hm] at h1
        exact Or.inl h1
      · rcases acc with _ | b
        · rw [bestStep, hm] at h1
          simp only [Option.some.injEq] at h1
          subst h1
          exact Or.inr ⟨List.mem_cons_self _ _, hm⟩
        · rw [bestStep, hm] at h1
          simp only [] at h1
          by_cases hgt : cmpPat e.1 b.1 = Ordering.gt
          · rw [if_pos hgt] at h1
            simp only [Option.some.injEq] at h1
            subst h1
            exact Or.inr ⟨List.mem_cons_self _ _, hm⟩
          · rw [if_neg hgt] at h1
            exact Or.inl h1
    · exact Or.inr ⟨List.mem_cons_of_mem _ h1.1, h1.2⟩

theorem bestFold_mono {ε : Type} (path : String) :
    ∀ (t : Table ε) (b r : Pattern × ε × Captures),
      t.foldl (bestStep path) (some b) = some r → cmpPat b.1 r.1 ≠ Ordering.gt := by
  intro t
  induction t with
  | nil =>
    intro b r h
    simp only [List.foldl_nil, Option.some.injEq] at h
    subst h
    simp [cmpPat_eq_iff.mpr rfl]
  | cons e rest ih =>
    intro b r h
    rw [List.foldl_cons] at h
    rcases hm : patMatch e.1 path with _ | cs
    · rw [bestStep, hm] at h
      exact ih b r h
    · rw [bestStep, hm] at h
      simp only [] at h
      by_cases hgt : cmpPat e.1 b.1 = Ordering.gt
      · rw [if_pos hgt] at h
        have h1 := ih _ r h
        have h2 : cmpPat b.1 e.1 ≠ Ordering.gt := by
          have := cmpPat_gt_iff.mp hgt
          simp [this]
        exact cmpPat_le_trans h2 h1
      · rw [if_neg hgt] at h
        exact ih b r h

theorem bestFold_max {ε : Type} (path : String) :
    ∀ (t : Table ε) (acc : Option (Pattern × ε × Captures)) (r : Pattern × ε × Captures),
      t.foldl (bestStep path) acc = some r →
      ∀ e ∈ t, (patMatch e.1 path).isSome = true → cmpPat e.1 r.1 ≠ Ordering.gt := by
  intro t
  induction t with
  | nil => intro acc r _ e he; exact absurd he (List.not_mem_nil e)
  | cons f rest ih =>
    intro acc r h e he hm
    rw [List.foldl_cons] at h
    rcases List.mem_cons.mp he with he | he
    · subst he
      rcases hme : patMatch e.1 path with _ | cs
      · rw [hme] at hm; simp at hm
      · rcases acc with _ | b
        · rw [bestStep, hme] at h
          exact bestFold_mono path rest _ r h
        · rw [bestStep, hme] at h
          simp only [] at h
          by_cases hgt : cmpPat e.1 b.1 = Ordering.gt
          · rw [if_pos hgt] at h
            exact bestFold_mono path rest _ r h
          · rw [if_neg hgt] at h
            have h1 := bestFold_mono path rest _ r h
            exact cmpPat_le_trans hgt h1
    · exact ih (bestStep path acc f) r h e he hm

/-- What it means to be the best-matching entry of a table. -/
def IsBestEntry {ε : Type} (t : Table ε) (path : String) (r : Pattern × ε × Captures) : Prop :=
  (r.1, r.2.1) ∈ t ∧ patMatch r.1 path = some r.2.2 ∧
    ∀ e ∈ t, (patMatch e.1 path).isSome = true → cmpPat e.1 r.1 ≠ Ordering.gt

theorem bestRoute_none_iff {ε : Type} {t : Table ε} {path : String} :
    bestRoute t path = none ↔ ∀ e ∈ t, patMatch e.1 path = none := by
  simpa using bestFold_none_iff path t none

theorem bestRoute_isBest {ε : Type} {t : Table ε} {path : String} {r : Pattern × ε × Captures}
    (h : bestRoute t path = some r) : IsBestEntry t path r := by
  rcases bestFold_mem path t none r h with h1 | h1
  · exact absurd h1 (by simp)
  · exact ⟨h1.1, h1.2, bestFold_max path t none r h⟩

theorem nodupKeys_val_eq {ε : Type} :
    ∀ {t : Table ε} {p : Pattern} {x y : ε}, (t.map Prod.fst).Nodup →
      (p, x) ∈ t → (p, y) ∈ t → x = y := by
  intro t
  induction t with
  | nil => intro p x y _ hx; exact absurd hx (List.not_mem_nil _)
  | cons e rest ih =>
    intro p x y hnd hx hy
    rw [List.map_cons, List.nodup_cons] at hnd
    rcases List.mem_cons.mp hx with hx | hx <;> rcases List.mem_cons.mp hy with hy | hy
    · rw [← hx] at hy
      exact (Prod.mk.injEq _ _ _ _ ▸ hy).2.symm
    · exact absurd (List.mem_map_of_mem Prod.fst hy) (by rw [← hx] at hnd; exact hnd.1)
    · exact absurd (List.mem_map_of_mem Prod.fst hx) (by rw [← hy] at hnd; exact hnd.1)
    · exact ih hnd.2 hx hy

theorem isBest_unique {ε : Type} {t : Table ε} {path : String}
    {r1 r2 : Pattern × ε × Captures} (hnd : (t.map Prod.fst).Nodup)
    (h1 : IsBestEntry t path r1) (h2 : IsBestEntry t path r2) : r1 = r2 := by
  obtain ⟨hm1, hp1, hx1⟩ := h1
  obtain ⟨hm2, hp2, hx2⟩ := h2
  have e12 : cmpPat r1.1 r2.1 ≠ Ordering.gt := hx2 _ hm1 (by simp [hp1])
  have e21 : cmpPat r2.1 r1.1 ≠ Ordering.gt := hx1 _ hm2 (by simp [hp2])
  have hpat : r1.1 = r2.1 := by
    rcases hc : cmpPat r1.1 r2.1 with _ | _ | _
    · exact absurd (cmpPat_gt_iff.mpr hc) e21
    · exact cmpPat_eq_iff.mp hc
    · exact absurd hc e12
  have hval : r1.2.1 = r2.2.1 := nodupKeys_val_eq hnd hm1 (hpat ▸ hm2)
  have hcs : r1.2.2 = r2.2.2 := by
    rw [hpat] at hp1
    rw [hp1] at hp2
    exact (Option.some.injEq _ _ ▸ hp2)
  rcases r1 with ⟨p1, v1, c1⟩
  rcases r2 with ⟨p2, v2, c2⟩
  simp_all

theorem bestRoute_perm {ε : Type} {t t' : Table ε} {path : String}
    (hperm : t.Perm t') (hnd : (t.map Prod.fst).Nodup) :
    bestRoute t path = bestRoute t' path := by
  have hnd' : (t'.map Prod.fst).Nodup := ((hperm.map Prod.fst).nodup_iff).mp hnd
  rcases h1 : bestRoute t path with _ | r1 <;> rcases h2 : bestRoute t' path with _ | r2
  · rfl
  · have hb := bestRoute_isBest h2
    have h3 : patMatch r2.1 path = none := bestRoute_none_iff.mp h1 _ (hperm.symm.mem_iff.mp hb.1)
    have h4 := hb.2.1
    rw [h3] at h4
    exact absurd h4 (by simp)
  · have hb := bestRoute_isBest h1
    have h3 : patMatch r1.1 path = none := bestRoute_none_iff.mp h2 _ (hperm.mem_iff.mp hb.1)
    have h4 := hb.2.1
    rw [h3] at h4
    exact absurd h4 (by simp)
  · have hb1 := bestRoute_isBest h1
    have hb2 := bestRoute_isBest h2
    have hb1' : IsBestEntry t' path r1 :=
      ⟨hperm.mem_iff.mp hb1.1, hb1.2.1,
        fun e he hm => hb1.2.2 e (hperm.symm.mem_iff.mp he) hm⟩
    exact congrArg some (isBest_unique hnd' hb1' hb2)

/-! ## Trailing-slash invariance of path splitting -/

theorem splitChars_append_slash : ∀ (l : List Char) (acc : List Char),
    splitChars (l ++ ['/']) acc = splitChars l acc ++ [[]]
  | [], acc => by simp [splitChars]
  | c :: rest, acc => by
    by_cases hc : c = '/'
    · simp [splitChars, hc, splitChars_append_slash rest]
    · simp [splitChars, hc, splitChars_append_slash rest]

theorem splitPath_trailing_slash (p : String) : splitPath (p ++ "/") = splitPath p := by
  unfold splitPath
  have h1 : (p ++ "/").toList = p.toList ++ ['/'] := by
    simp [String.toList]
  rw [h1, splitChars_append_slash]
  simp

/-- For `m ≠ HEAD` the full cascade and the retry-free cascade agree. -/
theorem routeBase_eq_route {ε : Type} (r : Router ε) (path : String) (m : Method)
    (hm : m ≠ Method.HEAD) : r.routeBase path m = r.route path m := by
  unfold Router.route Router.routeBase
  rcases h1 : (mapGet r.method_map m).bind (fun t => bestRoute t path) with _ | sel
  · rcases h2 : bestRoute r.all_method_router path with _ | sel2
    · simp [hm]
    · rfl
  · rfl

/-! ## Claim theorems: routing -/

/-- C1: for every frozen router, request path `p` and method `m`,
`route(p, m)` resolves in exactly this order: (1) the best match in the
method-specific table; (2) otherwise the best match in the all-methods
table; (3) otherwise, if `m` is HEAD, the result of re-resolving `(p, GET)`;
(4) otherwise, if some other method's table has a match for `p`, a synthetic
405 Method Not Allowed selection with empty captures; (5) otherwise a
synthetic 404 Not Found selection with empty captures. -/
theorem claim_C1_route_resolution_order {ε : Type} (r : Router ε) (path : String) (m : Method) :
    (∀ p h cs, (mapGet r.method_map m).bind (fun t => bestRoute t path) = some (p, h, cs) →
      r.route path m = ⟨EndpointRef.user h, cs⟩) ∧
    ((mapGet r.method_map m).bind (fun t => bestRoute t path) = none →
      ∀ p h cs, bestRoute r.all_method_router path = some (p, h, cs) →
        r.route path m = ⟨EndpointRef.user h, cs⟩) ∧
    ((mapGet r.method_map m).bind (fun t => bestRoute t path) = none →
      bestRoute r.all_method_router path = none → m = Method.HEAD →
      r.route path m = r.route path Method.GET) ∧
    ((mapGet r.method_map m).bind (fun t => bestRoute t path) = none →
      bestRoute r.all_method_router path = none → m ≠ Method.HEAD →
      (r.method_map.any fun e => e.1 ≠ m && (bestRoute e.2 path).isSome) = true →
      r.route path m = ⟨EndpointRef.methodNotAllowedEndpoint, Captures.empty⟩) ∧
    ((mapGet r.method_map m).bind (fun t => bestRoute t path) = none →
      bestRoute r.all_method_router path = none → m ≠ Method.HEAD →
      (r.method_map.any fun e => e.1 ≠ m && (bestRoute e.2 path).isSome) = false →
      r.route path m = ⟨EndpointRef.notFoundEndpoint, Captures.empty⟩) := by
  refine ⟨?_, ?_, ?_, ?_, ?_⟩
  · intro p h cs h1
    unfold Router.route
    rw [h1]
  · intro h1 p h cs h2
    unfold Router.route
    rw [h1, h2]
  · intro h1 h2 h3
    subst h3
    have hL : r.route path Method.HEAD = r.routeBase path Method.GET := by
      unfold Router.route
      rw [h1, h2]
      simp
    rw [hL]
    exact routeBase_eq_route r path Method.GET (by simp)
  · intro h1 h2 h3 h4
    unfold Router.route
    rw [h1, h2, if_neg h3, if_pos h4]
  · intro h1 h2 h3 h4
    unfold Router.route
    rw [h1, h2, if_neg h3, if_neg (by rw [h4]; decide)]

theorem claim_C1_witness :
    (⟨[(Method.POST, [([Segment.exact "a"], (7 : Nat))])], []⟩ : Router Nat).route
        "/a" Method.GET
      = ⟨EndpointRef.methodNotAllowedEndpoint, Captures.empty⟩ :=
  (claim_C1_route_resolution_order
      (⟨[(Method.POST, [([Segment.exact "a"], (7 : Nat))])], []⟩ : Router Nat)
      "/a" Method.GET).2.2.2.1 (by decide) (by decide) (by decide) (by decide)

/-- C2: routing always selects the most specific matching pattern (a
position-wise comparison in which a literal beats a capture beats a
wildcard, and of two otherwise equal patterns the wildcard-absent one beats
the one extended by a wildcard), deterministically and independently of
registration order; in particular with `/:one/:two` and `/posts/*` both
registered for GET, a request for `/posts/10` selects the `/posts/*` route,
and with `/a` and `/a/*` both registered for GET, a request for `/a`
selects `/a`, whichever was registered first. -/
theorem claim_C2_specificity {ε : Type} (t : Table ε) (path : String) :
    (∀ r, bestRoute t path = some r →
      (r.1, r.2.1) ∈ t ∧ patMatch r.1 path = some r.2.2 ∧
        ∀ e ∈ t, (patMatch e.1 path).isSome = true → e.1 ≠ r.1 →
          cmpPat e.1 r.1 = Ordering.lt) ∧
    (∀ t' : Table ε, t.Perm t' → (t.map Prod.fst).Nodup →
      bestRoute t path = bestRoute t' path) ∧
    (((Router.new.add "/:one/:two" Method.GET 1).bind
        (fun r => r.add "/posts/*" Method.GET 2)).map
          (fun r => r.route "/posts/10" Method.GET)
      = some ⟨EndpointRef.user (2 : Nat), ⟨[], some "10"⟩⟩) ∧
    (((Router.new.add "/posts/*" Method.GET 2).bind
        (fun r => r.add "/:one/:two" Method.GET 1)).map
          (fun r => r.route "/posts/10" Method.GET)
      = some ⟨EndpointRef.user (2 : Nat), ⟨[], some "10"⟩⟩) ∧
    (((Router.new.add "/a" Method.GET 1).bind
        (fun r => r.add "/a/*" Method.GET 2)).map
          (fun r => r.route "/a" Method.GET)
      = some ⟨EndpointRef.user (1 : Nat), ⟨[], none⟩⟩) ∧
    (((Router.new.add "/a/*" Method.GET 2).bind
        (fun r => r.add "/a" Method.GET 1)).map
          (fun r => r.route "/a" Method.GET)
      = some ⟨EndpointRef.user (1 : Nat), ⟨[], none⟩⟩) := by
  refine ⟨?_, ?_, by decide, by decide, by decide, by decide⟩
  · intro r hr
    obtain ⟨hmem, hpat, hmax⟩ := bestRoute_isBest hr
    refine ⟨hmem, hpat, fun e he hm hne => ?_⟩
    have hle := hmax e he hm
    rcases hc : cmpPat e.1 r.1 with _ | _ | _
    · rfl
    · exact absurd (cmpPat_eq_iff.mp hc) hne
    · exact absurd hc hle
  · intro t' hperm hnd
    exact bestRoute_perm hperm hnd

theorem claim_C2_witness :
    (([Segment.exact "posts", Segment.wildcard ""], (2 : Nat)) ∈
      ([([Segment.capture "one", Segment.capture "two"], 1),
        ([Segment.exact "posts", Segment.wildcard ""], 2)] : Table Nat)) ∧
    bestRoute
        ([([Segment.capture "one", Segment.capture "two"], 1),
          ([Segment.exact "posts", Segment.wildcard ""], 2)] : Table Nat) "/posts/10"
      = bestRoute
        ([([Segment.exact "posts", Segment.wildcard ""], 2),
          ([Segment.capture "one", Segment.capture "two"], 1)] : Table Nat) "/posts/10" := by
  constructor
  · exact ((claim_C2_specificity
      ([([Segment.capture "one", Segment.capture "two"], 1),
        ([Segment.exact "posts", Segment.wildcard ""], 2)] : Table Nat) "/posts/10").1
      ([Segment.exact "posts", Segment.wildcard ""], 2, ⟨[], some "10"⟩) (by decide)).1
  · exact (claim_C2_specificity
      ([([Segment.capture "one", Segment.capture "two"], 1),
        ([Segment.exact "posts", Segment.wildcard ""], 2)] : Table Nat) "/posts/10").2.1
      _ (List.Perm.swap _ _ _) (by decide)

/-- C7: matching ignores a single trailing slash — the match result
(captures and wildcard remainder included) of `p ++ "/"` equals that of `p`
for every pattern; in particular for `/echo/*` registered with GET, `/echo`
and `/echo/` both match with an empty wildcard remainder, and deeper paths
bind the remaining segments joined by `/`. -/
theorem claim_C7_trailing_slash :
    (∀ (pat : Pattern) (p : String), patMatch pat (p ++ "/") = patMatch pat p) ∧
    compile "/echo/*" = some [Segment.exact "echo", Segment.wildcard ""] ∧
    patMatch [Segment.exact "echo", Segment.wildcard ""] "/echo" = some ⟨[], some ""⟩ ∧
    patMatch [Segment.exact "echo", Segment.wildcard ""] "/echo/" = some ⟨[], some ""⟩ ∧
    patMatch [Segment.exact "echo", Segment.wildcard ""] "/echo/some_path"
      = some ⟨[], some "some_path"⟩ ∧
    patMatch [Segment.exact "echo", Segment.wildcard ""] "/echo/multi/segment/path"
      = some ⟨[], some "multi/segment/path"⟩ ∧
    (⟨[(Method.GET, [([Segment.exact "echo", Segment.wildcard ""], (5 : Nat))])], []⟩ :
        Router Nat).route "/echo" Method.GET
      = ⟨EndpointRef.user 5, ⟨[], some ""⟩⟩ ∧
    (⟨[(Method.GET, [([Segment.exact "echo", Segment.wildcard ""], (5 : Nat))])], []⟩ :
        Router Nat).route "/echo/" Method.GET
      = ⟨EndpointRef.user 5, ⟨[], some ""⟩⟩ := by
  refine ⟨?_, by decide, by decide, by decide, by decide, by decide, by decide, by decide⟩
  intro pat p
  unfold patMatch
  rw [splitPath_trailing_slash]

/-! ## The request Context

Translated from `envoy_http/src/context.rs` (typed store, `param`,
`wildcard`) and `src/context.rs` (`req`/`res`/`params` fields, `param`,
`wildcard`; its `param` is identical).  The typed store is a
`HashMap<TypeId, Box<dyn Any + Send>>`; Rust's open universe of `'static`
types is embedded as a fixed universe `TypeTag` of value types with
`TypeId::of` being the tag itself, `Box<dyn Any>` the dependent pair `Dyn`,
and `downcast` the checked cast between a pair and an expected tag. -/

inductive TypeTag : Type where
  | natT | intT | strT | boolT | unitT
  deriving DecidableEq

def TypeTag.denote : TypeTag → Type
  | TypeTag.natT => Nat
  | TypeTag.intT => Int
  | TypeTag.strT => String
  | TypeTag.boolT => Bool
  | TypeTag.unitT => Unit

/-- `std::any::type_name`, used in panic messages. -/
def TypeTag.typeName : TypeTag → String
  | TypeTag.natT => "u64"
  | TypeTag.intT => "i64"
  | TypeTag.strT => "String"
  | TypeTag.boolT => "bool"
  | TypeTag.unitT => "()"

instance (t : TypeTag) : DecidableEq t.denote :=
  match t with
  | TypeTag.natT => inferInstanceAs (DecidableEq Nat)
  | TypeTag.intT => inferInstanceAs (DecidableEq Int)
  | TypeTag.strT => inferInstanceAs (DecidableEq String)
  | TypeTag.boolT => inferInstanceAs (DecidableEq Bool)
  | TypeTag.unitT => inferInstanceAs (DecidableEq Unit)

/-- A boxed `dyn Any` value: a type tag together with a value of that
type. -/
abbrev Dyn := (t : TypeTag) × t.denote

/-- The `ctx` map of `Context`, keyed by `TypeId`. -/
abbrev Store := List (TypeTag × Dyn)

/-- `Any::downcast`: succeeds exactly when the boxed value has the expected
type. -/
def downcast (t : TypeTag) (d : Dyn) : Option t.denote :=
  if h : d.1 = t then some (h ▸ d.2) else none

/-- `HashMap::get` (first entry with the key; a `HashMap` has at most
one). -/
def storeGet : Store → TypeTag → Option Dyn
  | [], _ => none
  | e :: rest, k => if e.1 = k then some e.2 else storeGet rest k

/-- `HashMap::insert`: replace the entry for the key, returning the previous
value, or append a new entry. -/
def storeInsert : Store → TypeTag → Dyn → Option Dyn × Store
  | [], k, v => (none, [(k, v)])
  | e :: rest, k, v =>
    if e.1 = k then (some e.2, (k, v) :: rest)
    else
      let pr := storeInsert rest k v
      (pr.1, e :: pr.2)

/-- `HashMap::remove`: drop the entry for the key, returning its value. -/
def storeRemove : Store → TypeTag → Option Dyn × Store
  | [], _ => (none, [])
  | e :: rest, k =>
    if e.1 = k then (some e.2, rest)
    else
      let pr := storeRemove rest k
      (pr.1, e :: pr.2)

/-- The invariant every store reachable through the `Context` operations
satisfies: each boxed value carries the type it is keyed under, and keys are
unique (as in a `HashMap`). -/
def StoreWF (s : Store) : Prop :=
  (∀ e ∈ s, e.2.1 = e.1) ∧ (s.map Prod.fst).Nodup

instance (s : Store) : Decidable (StoreWF s) := by
  unfold StoreWF
  infer_instance

instance {α β : Type} [DecidableEq α] [DecidableEq β] : DecidableEq (Except α β) :=
  fun x y =>
    match x, y with
    | Except.ok a, Except.ok b =>
      if h : a = b then isTrue (by rw [h]) else isFalse (by intro hc; cases hc; exact h rfl)
    | Except.error a, Except.error b =>
      if h : a = b then isTrue (by rw [h]) else isFalse (by intro hc; cases hc; exact h rfl)
    | Except.ok _, Except.error _ => isFalse (by intro hc; cases hc)
    | Except.error _, Except.ok _ => isFalse (by intro hc; cases hc)

/-- The result of a call that may `panic!`. -/
inductive PanicOr (α : Type) : Type where
  | panicked (msg : String)
  | ok (v : α)
  deriving DecidableEq

structure Request where
  path : String
  deriving DecidableEq

structure Response where
  status : Nat
  body : String
  deriving DecidableEq

/-- The per-request context: the request, the response under construction,
the stack of route captures, and the typed store. -/
structure Context where
  req : Request
  res : Response
  params : List Captures
  store : Store
  deriving DecidableEq

/-- `Context::try_borrow`:
`self.ctx.get(&TypeId::of::<T>()).and_then(|v| v.downcast_ref::<T>())`. -/
def Context.try_borrow (c : Context) (t : TypeTag) : Option t.denote :=
  (storeGet c.store t).bind (downcast t)

/-- `Context::borrow`: panics when the value does not exist. -/
def Context.borrow (c : Context) (t : TypeTag) : PanicOr t.denote :=
  match c.try_borrow t with
  | some v => PanicOr.ok v
  | none => PanicOr.panicked ("Context value `" ++ t.typeName ++ "` does not exist")

/-- `Context::try_borrow_mut`: the same lookup through
`get_mut`/`downcast_mut`. -/
def Context.try_borrow_mut (c : Context) (t : TypeTag) : Option t.denote :=
  (storeGet c.store t).bind (downcast t)

/-- `Context::borrow_mut`: panics when the value does not exist. -/
def Context.borrow_mut (c : Context) (t : TypeTag) : PanicOr t.denote :=
  match c.try_borrow_mut t with
  | some v => PanicOr.ok v
  | none => PanicOr.panicked ("Context value `" ++ t.typeName ++ "` does not exist")

/-- `Context::try_take`:
`self.ctx.remove(&TypeId::of::<T>()).and_then(|v| v.downcast::<T>().map(|v| *v).ok())`. -/
def Context.try_take (c : Context) (t : TypeTag) : Option t.denote × Context :=
  let pr := storeRemove c.store t
  (pr.1.bind (downcast t), { c with store := pr.2 })

/-- `Context::take`: panics when the value does not exist. -/
def Context.take (c : Context) (t : TypeTag) : PanicOr t.denote × Context :=
  let pr := c.try_take t
  (match pr.1 with
   | some v => PanicOr.ok v
   | none => PanicOr.panicked ("Context value `" ++ t.typeName ++ "` does not exist"),
   pr.2)

/-- `Context::insert`:
`self.ctx.insert(TypeId::of::<T>(), Box::new(value)).map(|v| *v.downcast::<T>().unwrap())`;
the `.unwrap()` panics if the previous boxed value had a different type. -/
def Context.insert (c : Context) (t : TypeTag) (v : t.denote) :
    PanicOr (Option t.denote) × Context :=
  let pr := storeInsert c.store t ⟨t, v⟩
  (match pr.1 with
   | none => PanicOr.ok none
   | some d =>
     match downcast t d with
     | some prev => PanicOr.ok (some prev)
     | none => PanicOr.panicked "called `Option::unwrap()` on a `None` value",
   { c with store := pr.2 })

/-- `Context::param`: search the capture stack from the most recently pushed
frame outward. -/
def Context.param (c : Context) (key : String) : Except String String :=
  match c.params.reverse.findSome? (fun cap => cap.get key) with
  | some v => Except.ok v
  | none => Except.error ("Param \"" ++ key ++ "\" not found")

/-- `Context::wildcard`: same search order, first wildcard remainder. -/
def Context.wildcard (c : Context) : Option String :=
  c.params.reverse.findSome? fun cap => cap.wildcard

/-! ## Store lemmas -/

theorem storeGet_mem : ∀ {s : Store} {t : TypeTag} {d : Dyn},
    storeGet s t = some d → (t, d) ∈ s := by
  intro s
  induction s with
  | nil => intro t d h; exact absurd h (by simp [storeGet])
  | cons e rest ih =>
    intro t d h
    rw [storeGet] at h
    by_cases he : e.1 = t
    · rw [if_pos he] at h
      simp only [Option.some.injEq] at h
      subst h
      subst he
      exact List.mem_cons_self _ _
    · rw [if_neg he] at h
      exact List.mem_cons_of_mem _ (ih h)

theorem storeInsert_fst : ∀ (s : Store) (t : TypeTag) (d : Dyn),
    (storeInsert s t d).1 = storeGet s t := by
  intro s
  induction s with
  | nil => intro t d; rfl
  | cons e rest ih =>
    intro t d
    rw [storeInsert, storeGet]
    by_cases he : e.1 = t
    · rw [if_pos he, if_pos he]
    · rw [if_neg he, if_neg he]
      exact ih t d

theorem storeRemove_fst : ∀ (s : Store) (t : TypeTag),
    (storeRemove s t).1 = storeGet s t := by
  intro s
  induction s with
  | nil => intro t; rfl
  | cons e rest ih =>
    intro t
    rw [storeRemove, storeGet]
    by_cases he : e.1 = t
    · rw [if_pos he, if_pos he]
    · rw [if_neg he, if_neg he]
      exact ih t

theorem storeGet_insert_self : ∀ (s : Store) (t : TypeTag) (d : Dyn),
    storeGet (storeInsert s t d).2 t = some d := by
  intro s
  induction s with
  | nil => intro t d; simp [storeInsert, storeGet]
  | cons e rest ih =>
    intro t d
    rw [storeInsert]
    by_cases he : e.1 = t
    · rw [if_pos he]
      simp [storeGet]
    · rw [if_neg he]
      simp only [storeGet, if_neg he]
      exact ih t d

theorem storeGet_insert_ne : ∀ (s : Store) (t : TypeTag) (d : Dyn) (u : TypeTag), u ≠ t →
    storeGet (storeInsert s t d).2 u = storeGet s u := by
  intro s
  induction s with
  | nil =>
    intro t d u hu
    show (if t = u then some d else storeGet [] u) = none
    rw [if_neg (fun h => hu (Eq.symm h))]
    rfl
  | cons e rest ih =>
    intro t d u hu
    by_cases he : e.1 = t
    · subst he
      rw [storeInsert, if_pos rfl]
      simp only [storeGet]
      rw [if_neg (fun h => hu (Eq.symm h)), if_neg (fun h => hu (Eq.symm h))]
    · rw [storeInsert, if_neg he]
      simp only [storeGet]
      by_cases heu : e.1 = u
      · rw [if_pos heu, if_pos heu]
      · rw [if_neg heu, if_neg heu]
        exact ih t d u hu

theorem storeGet_remove_ne : ∀ (s : Store) (t u : TypeTag), u ≠ t →
    storeGet (storeRemove s t).2 u = storeGet s u := by
  intro s
  induction s with
  | nil => intro t u _; rfl
  | cons e rest ih =>
    intro t u hu
    rw [storeRemove]
    by_cases he : e.1 = t
    · rw [if_pos he]
      rw [storeGet, if_neg (by rw [he]; exact fun h => hu (Eq.symm h))]
    · rw [if_neg he]
      simp only [storeGet]
      by_cases heu : e.1 = u
      · rw [if_pos heu, if_pos heu]
      · rw [if_neg heu, if_neg heu]
        exact ih t u hu

theorem storeGet_none_iff : ∀ {s : Store} {t : TypeTag},
    storeGet s t = none ↔ t ∉ s.map Prod.fst := by
  intro s
  induction s with
  | nil => intro t; simp [storeGet]
  | cons e rest ih =>
    intro t
    rw [storeGet]
    by_cases he : e.1 = t
    · rw [if_pos he]
      simp [he]
    · rw [if_neg he, ih]
      simp only [List.map_cons, List.mem_cons]
      have hne : ¬ t = e.1 := fun h => he (Eq.symm h)
      tauto

theorem storeRemove_of_get_none : ∀ {s : Store} {t : TypeTag},
    storeGet s t = none → storeRemove s t = (none, s) := by
  intro s
  induction s with
  | nil => intro t _; rfl
  | cons e rest ih =>
    intro t h
    rw [storeGet] at h
    by_cases he : e.1 = t
    · rw [if_pos he] at h
      exact absurd h (by simp)
    · rw [if_neg he] at h
      rw [storeRemove, if_neg he, ih h]

theorem storeInsert_keys_mem : ∀ {s : Store} {t : TypeTag} {d : Dyn} {u : TypeTag},
    u ∈ (storeInsert s t d).2.map Prod.fst ↔ u = t ∨ u ∈ s.map Prod.fst := by
  intro s
  induction s with
  | nil => intro t d u; simp [storeInsert]
  | cons e rest ih =>
    intro t d u
    rw [storeInsert]
    by_cases he : e.1 = t
    · rw [if_pos he]
      subst he
      simp
    · rw [if_neg he]
      simp only [List.map_cons, List.mem_cons, ih]
      tauto

theorem storeInsert_nodup : ∀ {s : Store} {t : TypeTag} {d : Dyn},
    (s.map Prod.fst).Nodup → ((storeInsert s t d).2.map Prod.fst).Nodup := by
  intro s
  induction s with
  | nil => intro t d _; simp [storeInsert]
  | cons e rest ih =>
    intro t d hnd
    rw [List.map_cons, List.nodup_cons] at hnd
    rw [storeInsert]
    by_cases he : e.1 = t
    · rw [if_pos he]
      rw [List.map_cons, List.nodup_cons]
      exact ⟨he ▸ hnd.1, hnd.2⟩
    · rw [if_neg he]
      rw [List.map_cons, List.nodup_cons]
      refine ⟨?_, ih hnd.2⟩
      rw [storeInsert_keys_mem]
      rintro (h | h)
      · exact he h
      · exact hnd.1 h

theorem storeGet_remove_self : ∀ {s : Store} {t : TypeTag},
    (s.map Prod.fst).Nodup → storeGet (storeRemove s t).2 t = none := by
  intro s
  induction s with
  | nil => intro t _; rfl
  | cons e rest ih =>
    intro t hnd
    rw [List.map_cons, List.nodup_cons] at hnd
    rw [storeRemove]
    by_cases he : e.1 = t
    · rw [if_pos he]
      rw [storeGet_none_iff]
      exact he ▸ hnd.1
    · rw [if_neg he]
      rw [storeGet, if_neg he]
      exact ih hnd.2

theorem downcast_self (t : TypeTag) (v : t.denote) : downcast t ⟨t, v⟩ = some v := by
  simp [downcast]

/-- Under the store invariant, a failed `try_borrow` means the key is
absent. -/
theorem tryBorrow_none_iff {c : Context} {t : TypeTag} (hwf : StoreWF c.store) :
    c.try_borrow t = none ↔ storeGet c.store t = none := by
  unfold Context.try_borrow
  rcases hg : storeGet c.store t with _ | d
  · simp
  · have hmem := storeGet_mem hg
    have htyp : d.1 = t := hwf.1 (t, d) hmem
    rcases d with ⟨td, dv⟩
    cases htyp
    simp [downcast_self]

/-! ## Claim theorems: context -/

/-- C8: `param(k)` returns the binding of `k` from the most recently pushed
captures frame that contains `k` (an inner frame shadows an outer one), and
returns an error exactly when no frame in the stack binds `k`. -/
theorem claim_C8_param_shadowing (c : Context) (key : String) :
    (c.params = [] →
      c.param key = Except.error ("Param \"" ++ key ++ "\" not found")) ∧
    (∀ (stack : List Captures) (top : Captures), c.params = stack ++ [top] →
      c.param key =
        match top.get key with
        | some v => Except.ok v
        | none => Context.param { c with params := stack } key) ∧
    ((∃ v, c.param key = Except.ok v) ↔ ∃ cap ∈ c.params, (cap.get key).isSome = true) := by
  refine ⟨?_, ?_, ?_⟩
  · intro h
    rw [Context.param, h]
    rfl
  · intro stack top h
    rw [Context.param, h, List.reverse_append]
    simp only [List.reverse_singleton, List.singleton_append, List.findSome?_cons]
    rcases hg : top.get key with _ | v
    · rw [Context.param]
    · rfl
  · constructor
    · rintro ⟨v, hv⟩
      rw [Context.param] at hv
      rcases hf : c.params.reverse.findSome? (fun cap => cap.get key) with _ | w
      · rw [hf] at hv
        exact absurd hv (by simp)
      · have hs : (c.params.reverse.findSome? (fun cap => cap.get key)).isSome = true := by
          rw [hf]
          rfl
        rw [List.findSome?_isSome_iff] at hs
        obtain ⟨cap, hm, hsome⟩ := hs
        exact ⟨cap, List.mem_reverse.mp hm, hsome⟩
    · rintro ⟨cap, hmem, hsome⟩
      have hs : (c.params.reverse.findSome? (fun cap => cap.get key)).isSome = true := by
        rw [List.findSome?_isSome_iff]
        exact ⟨cap, List.mem_reverse.mpr hmem, hsome⟩
      rcases hf : c.params.reverse.findSome? (fun cap => cap.get key) with _ | w
      · rw [hf] at hs
        exact absurd hs (by simp)
      · refine ⟨w, ?_⟩
        rw [Context.param, hf]

theorem claim_C8_witness :
    Context.param
        ⟨⟨"/"⟩, ⟨200, ""⟩, [⟨[("a", "outer")], none⟩, ⟨[("a", "inner")], none⟩], []⟩ "a"
      = Except.ok "inner" :=
  ((claim_C8_param_shadowing
      ⟨⟨"/"⟩, ⟨200, ""⟩, [⟨[("a", "outer")], none⟩, ⟨[("a", "inner")], none⟩], []⟩ "a").2.1
    [⟨[("a", "outer")], none⟩] ⟨[("a", "inner")], none⟩ rfl).trans (by decide)

/-- C9: the typed store keys by exact type: `insert` returns the previously
stored value of that type (none if absent) and replaces it; after an insert,
`try_take` yields the inserted value and removes it, so a following
`try_borrow` is none; and operations at one type never affect another
type's entry. -/
theorem claim_C9_typed_store (c : Context) (t : TypeTag) (v : t.denote)
    (hwf : StoreWF c.store) :
    (c.insert t v).1 = PanicOr.ok (c.try_borrow t) ∧
    ((c.insert t v).2).try_borrow t = some v ∧
    (((c.insert t v).2).try_take t).1 = some v ∧
    ((((c.insert t v).2).try_take t).2).try_borrow t = none ∧
    (∀ u : TypeTag, u ≠ t →
      ((c.insert t v).2).try_borrow u = c.try_borrow u ∧
      ((c.try_take t).2).try_borrow u = c.try_borrow u) := by
  refine ⟨?_, ?_, ?_, ?_, ?_⟩
  · show (match (storeInsert c.store t ⟨t, v⟩).1 with
      | none => PanicOr.ok none
      | some d =>
        match downcast t d with
        | some prev => PanicOr.ok (some prev)
        | none => PanicOr.panicked "called `Option::unwrap()` on a `None` value")
      = PanicOr.ok (c.try_borrow t)
    rw [storeInsert_fst, Context.try_borrow]
    rcases hg : storeGet c.store t with _ | d
    · rfl
    · have htyp : d.1 = t := hwf.1 (t, d) (storeGet_mem hg)
      rcases d with ⟨td, dv⟩
      cases htyp
      simp [downcast_self]
  · show (storeGet (storeInsert c.store t ⟨t, v⟩).2 t).bind (downcast t) = some v
    rw [storeGet_insert_self]
    simp [downcast_self]
  · show ((storeRemove (storeInsert c.store t ⟨t, v⟩).2 t).1).bind (downcast t) = some v
    rw [storeRemove_fst, storeGet_insert_self]
    simp [downcast_self]
  · show (storeGet (storeRemove (storeInsert c.store t ⟨t, v⟩).2 t).2 t).bind (downcast t)
      = none
    rw [storeGet_remove_self (storeInsert_nodup hwf.2)]
    rfl
  · intro u hu
    constructor
    · show (storeGet (storeInsert c.store t ⟨t, v⟩).2 u).bind (downcast u)
        = (storeGet c.store u).bind (downcast u)
      rw [storeGet_insert_ne _ _ _ _ hu]
    · show (storeGet (storeRemove c.store t).2 u).bind (downcast u)
        = (storeGet c.store u).bind (downcast u)
      rw [storeGet_remove_ne _ _ _ hu]

theorem claim_C9_witness :
    ((Context.insert ⟨⟨"/"⟩, ⟨200, ""⟩, [], []⟩ TypeTag.natT (show Nat from 3)).2).try_borrow
        TypeTag.natT
      = some (show Nat from 3) ∧
    ((Context.insert ⟨⟨"/"⟩, ⟨200, ""⟩, [], []⟩ TypeTag.natT (show Nat from 3)).2).try_borrow
        TypeTag.strT
      = Context.try_borrow ⟨⟨"/"⟩, ⟨200, ""⟩, [], []⟩ TypeTag.strT :=
  ⟨(claim_C9_typed_store ⟨⟨"/"⟩, ⟨200, ""⟩, [], []⟩ TypeTag.natT (show Nat from 3)
      (by decide)).2.1,
    ((claim_C9_typed_store ⟨⟨"/"⟩, ⟨200, ""⟩, [], []⟩ TypeTag.natT (show Nat from 3)
      (by decide)).2.2.2.2 TypeTag.strT (by decide)).1⟩

/-- C10: when the store holds no value of type `t`, the non-try accessors
`borrow`, `borrow_mut` and `take` panic with a "Context value ... does not
exist" message while `try_borrow`, `try_borrow_mut` and `try_take` return
none and leave the store unchanged; and when a value is present, the panic
branch is unreachable. -/
theorem claim_C10_panic_on_missing (c : Context) (t : TypeTag) (hwf : StoreWF c.store) :
    (c.try_borrow t = none →
      c.borrow t
          = PanicOr.panicked ("Context value `" ++ t.typeName ++ "` does not exist") ∧
      c.borrow_mut t
          = PanicOr.panicked ("Context value `" ++ t.typeName ++ "` does not exist") ∧
      (c.take t).1
          = PanicOr.panicked ("Context value `" ++ t.typeName ++ "` does not exist") ∧
      c.try_borrow_mut t = none ∧
      (c.try_take t).1 = none ∧ (c.try_take t).2 = c) ∧
    (∀ v, c.try_borrow t = some v →
      c.borrow t = PanicOr.ok v ∧ c.borrow_mut t = PanicOr.ok v ∧
        (c.take t).1 = PanicOr.ok v) := by
  constructor
  · intro h
    have hget : storeGet c.store t = none := (tryBorrow_none_iff hwf).mp h
    have hrm := storeRemove_of_get_none hget
    have htake1 : (c.try_take t).1 = none := by
      show ((storeRemove c.store t).1).bind (downcast t) = none
      rw [hrm]
      rfl
    have htake2 : (c.try_take t).2 = c := by
      show ({ c with store := (storeRemove c.store t).2 } : Context) = c
      rw [hrm]
    have hmut : c.try_borrow_mut t = none := h
    refine ⟨?_, ?_, ?_, hmut, htake1, htake2⟩
    · rw [Context.borrow, h]
    · rw [Context.borrow_mut, hmut]
    · show (match (c.try_take t).1 with
        | some v => PanicOr.ok v
        | none =>
          PanicOr.panicked ("Context value `" ++ t.typeName ++ "` does not exist"))
        = PanicOr.panicked ("Context value `" ++ t.typeName ++ "` does not exist")
      rw [htake1]
  · intro v h
    have hmut : c.try_borrow_mut t = some v := h
    have htake1 : (c.try_take t).1 = some v := by
      show ((storeRemove c.store t).1).bind (downcast t) = some v
      rw [storeRemove_fst]
      exact h
    refine ⟨?_, ?_, ?_⟩
    · rw [Context.borrow, h]
    · rw [Context.borrow_mut, hmut]
    · show (match (c.try_take t).1 with
        | some v => PanicOr.ok v
        | none =>
          PanicOr.panicked ("Context value `" ++ t.typeName ++ "` does not exist"))
        = PanicOr.ok v
      rw [htake1]

theorem claim_C10_witness :
    Context.borrow ⟨⟨"/"⟩, ⟨200, ""⟩, [], []⟩ TypeTag.natT
        = PanicOr.panicked "Context value `u64` does not exist" ∧
    (Context.try_take ⟨⟨"/"⟩, ⟨200, ""⟩, [], []⟩ TypeTag.natT).2
        = ⟨⟨"/"⟩, ⟨200, ""⟩, [], []⟩ :=
  ⟨((claim_C10_panic_on_missing ⟨⟨"/"⟩, ⟨200, ""⟩, [], []⟩ TypeTag.natT
      (by decide)).1 (by decide)).1,
    ((claim_C10_panic_on_missing ⟨⟨"/"⟩, ⟨200, ""⟩, [], []⟩ TypeTag.natT
      (by decide)).1 (by decide)).2.2.2.2.2⟩

/-! ## Middleware chain

Translated from `src/middleware.rs` (`Next::run`) and `src/endpoint.rs`
(`MiddlewareEndpoint`).  The repository snapshot mixes revisions: in
`src/middleware.rs` the chain's `run` converts an unhandled error into a
response itself (`Err(err) => err.into()`), while `src/server.rs` matches on
a `Result` from `run`; both shapes are embedded, each from its own file
(`Next.run` here, `respond` below). -/

/-- An `http_types::Error`: carries an associated status code and a
message (`err.status()`, `err.to_string()`). -/
structure HttpError where
  status : Nat
  msg : String
  deriving DecidableEq

/-- `err.into()`: the error-to-response conversion, producing a response
carrying the error's status and message. -/
def errToResponse (e : HttpError) : Response := ⟨e.status, e.msg⟩

/-- `Endpoint::call(&self, ctx) -> crate::Result`. -/
abbrev Endpoint := Context → Except HttpError Response

/-- `Middleware::handle(&self, ctx, next) -> crate::Result`.  The `Next`
value a Rust middleware receives is represented by the one operation it
exposes, its run function `Context → Response`. -/
abbrev Middleware := Context → (Context → Response) → Except HttpError Response

/-- `struct Next` (src/middleware.rs 46-51): the terminal endpoint, the
shared middleware list.and the current index. -/
structure Next where
  endpoint : Endpoint
  middleware : List Middleware
  current_index : Nat

/-- `Next::run` (src/middleware.rs 68-85): invoke the middleware at the
current index, handing it the chain advanced by one; when no middleware
remain, invoke the endpoint; convert an error from either into a
response. -/
def Next.run (n : Next) : Context → Response :=
  fun ctx =>
    match h : n.middleware.get? n.current_index with
    | some current =>
      match current ctx (Next.run { n with current_index := n.current_index + 1 }) with
      | Except.ok res => res
      | Except.error err => errToResponse err
    | none =>
      match n.endpoint ctx with
      | Except.ok res => res
      | Except.error err => errToResponse err
termination_by n.middleware.length - n.current_index
decreasing_by
  obtain ⟨hlt, -⟩ := List.get?_eq_some.mp h
  omega

/-- `MiddlewareEndpoint::call` (src/endpoint.rs 119-129): run a fresh chain
over the stored route middleware with the wrapped endpoint as terminal.  In
this snapshot `Next::run` converts errors itself, so the call always yields
the produced response. -/
def MiddlewareEndpoint.call (endpoint : Endpoint) (middleware : List Middleware) : Endpoint :=
  fun ctx => Except.ok (Next.run ⟨endpoint, middleware, 0⟩ ctx)

/-- `MiddlewareEndpoint::wrap_with_middleware` (src/endpoint.rs 104-117). -/
def wrap_with_middleware (ep : Endpoint) (middleware : List Middleware) : Endpoint :=
  if middleware.isEmpty then ep else MiddlewareEndpoint.call ep middleware

/-- The chain as a right fold: middleware in list order around the
endpoint. -/
def chainExec : List Middleware → Endpoint → Context → Response
  | [], ep, ctx =>
    match ep ctx with
    | Except.ok res => res
    | Except.error err => errToResponse err
  | m :: rest, ep, ctx =>
    match m ctx (chainExec rest ep) with
    | Except.ok res => res
    | Except.error err => errToResponse err

theorem run_eq_chainExec (ep : Endpoint) (mws : List Middleware) :
    ∀ (k i : Nat), mws.length - i ≤ k →
      Next.run ⟨ep, mws, i⟩ = chainExec (mws.drop i) ep := by
  intro k
  induction k with
  | zero =>
    intro i hi
    have hlen : mws.length ≤ i := by omega
    have hno : mws.get? i = none := List.get?_eq_none.mpr hlen
    funext ctx
    rw [Next.run.eq_def]
    rw [List.drop_eq_nil_of_le hlen]
    split
    · rename_i heq
      rw [hno] at heq
      exact absurd heq (by simp)
    · rfl
  | succ k ih =>
    intro i hi
    funext ctx
    rw [Next.run.eq_def]
    split
    · rename_i m heq
      simp only at heq
      obtain ⟨hlt, hget⟩ := List.get?_eq_some.mp heq
      have hdrop : mws.drop i = m :: mws.drop (i + 1) := by
        rw [List.drop_eq_getElem_cons hlt]
        simp only [List.get_eq_getElem] at hget
        rw [hget]
      rw [hdrop, chainExec]
      have hrec : Next.run ⟨ep, mws, i + 1⟩ = chainExec (mws.drop (i + 1)) ep :=
        ih (i + 1) (by omega)
      rw [hrec]
    · rename_i heq
      simp only at heq
      have hlen : mws.length ≤ i := List.get?_eq_none.mp heq
      rw [List.drop_eq_nil_of_le hlen, chainExec]

/-- Global middleware concatenates with route middleware: running the global
chain over a route-wrapped endpoint is running one chain over the plain
endpoint. -/
theorem run_wrap_eq_append (ep : Endpoint) (g rmws : List Middleware) (ctx : Context) :
    Next.run ⟨wrap_with_middleware ep rmws, g, 0⟩ ctx = Next.run ⟨ep, g ++ rmws, 0⟩ ctx := by
  rw [run_eq_chainExec _ _ g.length 0 (by omega),
    run_eq_chainExec _ _ (g ++ rmws).length 0 (by omega)]
  rw [List.drop_zero, List.drop_zero]
  induction g generalizing ctx with
  | nil =>
    rw [List.nil_append, chainExec]
    unfold wrap_with_middleware
    by_cases hr : rmws.isEmpty
    · rw [if_pos hr]
      have : rmws = [] := List.isEmpty_iff.mp hr
      subst this
      rw [chainExec]
    · rw [if_neg hr]
      unfold MiddlewareEndpoint.call
      rw [run_eq_chainExec _ _ rmws.length 0 (by omega), List.drop_zero]
  | cons m g ihg =>
    rw [List.cons_append, chainExec, chainExec]
    have hk : chainExec g (wrap_with_middleware ep rmws) = chainExec (g ++ rmws) ep := by
      funext ctx2
      exact ihg ctx2
    rw [hk]

/-! ## Dispatch boundary and route builder -/

/-- `Server::respond` (src/server.rs 162-186), parameterised over the routed
chain.  In the source, `run` is `Next::new(endpoint, middleware).run`, an
arbitrary user middleware/handler chain that mutates the context and may
fail; `respond` runs it, and on `Err(err)` sets the error's message as the
response body and the error's status as the response status; the caller
always receives `Ok`. -/
def respond (run : Context → Context × Option HttpError) (ctx : Context) :
    Except HttpError Response :=
  let pr := run ctx
  match pr.2 with
  | some err => Except.ok { pr.1.res with body := err.msg, status := err.status }
  | none => Except.ok pr.1.res

/-- `StripPrefixEndpoint::call` (src/route.rs 248-279): rewrite the request
path to the innermost captured wildcard remainder (empty when no wildcard
capture is present), then delegate to the inner endpoint. -/
def StripPrefixEndpoint.call (inner : Endpoint) : Endpoint :=
  fun ctx =>
    let rest := (ctx.params.reverse.findSome? fun captures => captures.wildcard).getD ""
    inner { ctx with req := { ctx.req with path := rest } }

/-- `p.ends_with('/')`. -/
def endsWithSlash (p : String) : Bool := p.toList.getLast? = some '/'

/-- `p.starts_with('/')`. -/
def startsWithSlash (p : String) : Bool := p.toList.head? = some '/'

/-- The `Route` builder (src/route.rs 17-26); the `&mut Router` it borrows
is passed explicitly to the registering operations below. -/
structure RouteB where
  path : String
  middleware : List Middleware
  prefixFlag : Bool

/-- `Route::at` (src/route.rs 38-56): extend the path with a single `/`
separator, snapshot the middleware, clear the prefix flag. -/
def RouteB.at (r : RouteB) (path : String) : RouteB :=
  let p := if ¬ endsWithSlash r.path ∧ ¬ startsWithSlash path then r.path ++ "/" else r.path
  let p := if path ≠ "/" then p ++ path else p
  { path := p, middleware := r.middleware, prefixFlag := false }

/-- `Route::all` (src/route.rs 158-176): register for all methods; with the
prefix flag set, wrap in the prefix-stripping adapter and register at
`path + "/*"`; `none` models the compile `.unwrap()` panic. -/
def RouteB.all (rt : RouteB) (router : Router Endpoint) (ep : Endpoint) :
    Option (Router Endpoint) :=
  if rt.prefixFlag then
    let ep := StripPrefixEndpoint.call ep
    let wildcard := rt.at "*"
    router.add_all wildcard.path (wrap_with_middleware ep wildcard.middleware)
  else
    router.add_all rt.path (wrap_with_middleware ep rt.middleware)

/-- `Route::nest` (src/route.rs 124-136): set the prefix flag, register the
sub-dispatcher through `all`, restore the flag — in value-passing style,
`all` on the builder with the flag set. -/
def RouteB.nest (rt : RouteB) (router : Router Endpoint) (sub : Endpoint) :
    Option (Router Endpoint) :=
  RouteB.all { rt with prefixFlag := true } router sub

/-! ## Claim theorems: dispatch -/

/-- C3: whatever the middleware/handler chain does, `respond` returns a
normal response rather than propagating the failure; on an error the
response's status is the error's associated status code and its body is the
error's message. -/
theorem claim_C3_error_to_response (run : Context → Context × Option HttpError)
    (ctx : Context) :
    (∃ res, respond run ctx = Except.ok res) ∧
    (∀ ctx2 err, run ctx = (ctx2, some err) →
      respond run ctx = Except.ok { ctx2.res with body := err.msg, status := err.status } ∧
      ({ ctx2.res with body := err.msg, status := err.status } : Response).status
          = err.status ∧
      ({ ctx2.res with body := err.msg, status := err.status } : Response).body = err.msg) ∧
    (∀ ctx2, run ctx = (ctx2, none) → respond run ctx = Except.ok ctx2.res) := by
  refine ⟨?_, ?_, ?_⟩
  · unfold respond
    rcases hr : run ctx with ⟨ctx2, e⟩
    rcases e with _ | err
    · exact ⟨ctx2.res, rfl⟩
    · exact ⟨{ ctx2.res with body := err.msg, status := err.status }, rfl⟩
  · intro ctx2 err hr
    unfold respond
    rw [hr]
    exact ⟨rfl, rfl, rfl⟩
  · intro ctx2 hr
    unfold respond
    rw [hr]

theorem claim_C3_witness :
    respond (fun c => (c, some ⟨418, "teapot"⟩)) ⟨⟨"/"⟩, ⟨200, ""⟩, [], []⟩
      = Except.ok ⟨418, "teapot"⟩ :=
  ((claim_C3_error_to_response (fun c => (c, some ⟨418, "teapot"⟩))
      ⟨⟨"/"⟩, ⟨200, ""⟩, [], []⟩).2.1 ⟨⟨"/"⟩, ⟨200, ""⟩, [], []⟩ ⟨418, "teapot"⟩ rfl).1

/-- C4: middleware run strictly sequentially in registration order — the
chain at index `i` invokes middleware `i` with the chain advanced to
`i + 1`, and invokes the terminal endpoint exactly when no middleware
remain; and global middleware, run first, wrap all route-level middleware,
which wrap the endpoint (the wrapped chain equals one chain over the
concatenated list). -/
theorem claim_C4_chain_order (ep : Endpoint) (mws : List Middleware) (i : Nat)
    (ctx : Context) :
    (∀ m, mws.get? i = some m →
      Next.run ⟨ep, mws, i⟩ ctx =
        match m ctx (Next.run ⟨ep, mws, i + 1⟩) with
        | Except.ok res => res
        | Except.error err => errToResponse err) ∧
    (mws.get? i = none →
      Next.run ⟨ep, mws, i⟩ ctx =
        match ep ctx with
        | Except.ok res => res
        | Except.error err => errToResponse err) ∧
    (∀ g rmws : List Middleware,
      Next.run ⟨wrap_with_middleware ep rmws, g, 0⟩ ctx
        = Next.run ⟨ep, g ++ rmws, 0⟩ ctx) := by
  refine ⟨?_, ?_, fun g rmws => run_wrap_eq_append ep g rmws ctx⟩
  · intro m hm
    rw [Next.run.eq_def]
    split
    · rename_i m2 heq
      simp only at heq
      rw [hm] at heq
      cases heq
      rfl
    · rename_i heq
      simp only at heq
      rw [hm] at heq
      exact absurd heq (by simp)
  · intro hm
    rw [Next.run.eq_def]
    split
    · rename_i m2 heq
      simp only at heq
      rw [hm] at heq
      exact absurd heq (by simp)
    · rfl

/-- A pass-through middleware and a constant endpoint for the C4 witness. -/
def passMw : Middleware := fun ctx k => Except.ok (k ctx)

def constEp : Endpoint := fun _ => Except.ok ⟨200, "done"⟩

theorem claim_C4_witness :
    Next.run ⟨constEp, [passMw], 0⟩ ⟨⟨"/"⟩, ⟨200, ""⟩, [], []⟩ = ⟨200, "done"⟩ := by
  have ha := (claim_C4_chain_order constEp [passMw] 0 ⟨⟨"/"⟩, ⟨200, ""⟩, [], []⟩).1 passMw rfl
  have hb := (claim_C4_chain_order constEp [passMw] 1 ⟨⟨"/"⟩, ⟨200, ""⟩, [], []⟩).2.1 rfl
  rw [ha]
  show (match Except.ok (Next.run ⟨constEp, [passMw], 1⟩ ⟨⟨"/"⟩, ⟨200, ""⟩, [], []⟩) with
    | Except.ok res => res
    | Except.error err => errToResponse err) = ⟨200, "done"⟩
  rw [hb]
  rfl

/-- C5: `nest` registers the sub-dispatcher as a catch-all handler at
`P ++ "/*"` in the all-methods table, wrapped in the prefix-stripping
adapter; before the sub-dispatcher runs, the request path is rewritten to
the innermost captured wildcard remainder, or to the empty string when no
wildcard capture is present. -/
theorem claim_C5_nest (r : Router Endpoint) (P : String) (mws : List Middleware)
    (sub : Endpoint) :
    (∀ pat, endsWithSlash P = false → compile (P ++ "/*") = some pat →
      RouteB.nest ⟨P, mws, false⟩ r sub = some
        { r with all_method_router :=
            r.all_method_router ++
              [(pat, wrap_with_middleware (StripPrefixEndpoint.call sub) mws)] }) ∧
    (∀ ctx w, ctx.params.reverse.findSome? (fun cap => cap.wildcard) = some w →
      StripPrefixEndpoint.call sub ctx
        = sub { ctx with req := { ctx.req with path := w } }) ∧
    (∀ ctx, ctx.params.reverse.findSome? (fun cap => cap.wildcard) = none →
      StripPrefixEndpoint.call sub ctx
        = sub { ctx with req := { ctx.req with path := "" } }) := by
  refine ⟨?_, ?_, ?_⟩
  · intro pat hend hcomp
    unfold RouteB.nest RouteB.all
    rw [if_pos rfl]
    unfold RouteB.at
    simp only [hend, startsWithSlash, Bool.not_eq_true]
    rw [if_pos (by simp [startsWithSlash]), if_pos (by decide)]
    unfold Router.add_all
    rw [show (P ++ "/") ++ "*" = P ++ "/*" by rw [String.append_assoc]; rfl]
    rw [hcomp]
    rfl
  · intro ctx w hw
    unfold StripPrefixEndpoint.call
    rw [hw]
    rfl
  · intro ctx hw
    unfold StripPrefixEndpoint.call
    rw [hw]
    rfl

/-- A sub-dispatcher endpoint for the C5 witness. -/
def echoPathEp : Endpoint := fun ctx => Except.ok ⟨200, ctx.req.path⟩

theorem claim_C5_witness :
    RouteB.nest ⟨"/api", [], false⟩ (Router.new : Router Endpoint) echoPathEp = some
      ⟨[], [([Segment.exact "api", Segment.wildcard ""],
        wrap_with_middleware (StripPrefixEndpoint.call echoPathEp) [])]⟩ ∧
    StripPrefixEndpoint.call echoPathEp
        ⟨⟨"/api/sub/path"⟩, ⟨200, ""⟩, [⟨[], some "sub/path"⟩], []⟩
      = echoPathEp ⟨⟨"sub/path"⟩, ⟨200, ""⟩, [⟨[], some "sub/path"⟩], []⟩ :=
  ⟨(claim_C5_nest Router.new "/api" [] echoPathEp).1
      [Segment.exact "api", Segment.wildcard ""] (by decide) (by decide),
    (claim_C5_nest Router.new "/api" [] echoPathEp).2.1
      ⟨⟨"/api/sub/path"⟩, ⟨200, ""⟩, [⟨[], some "sub/path"⟩], []⟩ "sub/path" (by decide)⟩

/-! ## Server lifecycle

Translated from `src/server.rs`.  The router and the middleware list are
held behind `Arc`s; a handle is modelled with the count of additional live
clones, and `Arc::get_mut` succeeds only on a unique handle (count 0).
`Clone for Server` (used once per dispatch by `respond`, and by
`listen`/`bind` when the server moves into the listener) bumps both counts;
the clones `respond` makes are dropped when it returns, which decrements
the counts again, so the sharing lasts exactly as long as a clone (an
in-flight dispatch, or the listener's copy) is alive. -/

structure ArcHandle (α : Type) : Type where
  value : α
  shared : Nat

/-- `Arc::get_mut`: mutable access only through a unique handle. -/
def ArcHandle.get_mut {α : Type} (a : ArcHandle α) : Option α :=
  if a.shared = 0 then some a.value else none

/-- `Server` (src/server.rs 27-38). -/
structure ServerS where
  router : ArcHandle (Router Endpoint)
  middleware : ArcHandle (List Middleware)

/-- `Server::new` (src/server.rs 43-48). -/
def ServerS.new : ServerS := ⟨⟨Router.new, 0⟩, ⟨[], 0⟩⟩

/-- `Clone for Server` (src/server.rs 196-203). -/
def ServerS.clone (s : ServerS) : ServerS :=
  ⟨⟨s.router.value, s.router.shared + 1⟩, ⟨s.middleware.value, s.middleware.shared + 1⟩⟩

/-- The drop of one clone of both handles: what happens when `respond`
(src/server.rs 162-186) returns and the `let Self {router, middleware} =
self.clone()` locals go out of scope. -/
def ServerS.dropClone (s : ServerS) : ServerS :=
  ⟨⟨s.router.value, s.router.shared - 1⟩, ⟨s.middleware.value, s.middleware.shared - 1⟩⟩

/-- The server is in the Serving state once one of its handles is shared. -/
def ServerS.serving (s : ServerS) : Bool :=
  s.router.shared ≠ 0 || s.middleware.shared ≠ 0

/-- `Server::at` (src/server.rs 101-105):
`Arc::get_mut(&mut self.router).expect("Registering routes is not possible
after the Server has started")`, then `Route::new(router, path)`. -/
def ServerS.at (s : ServerS) (path : String) : PanicOr (RouteB × Router Endpoint) :=
  match s.router.get_mut with
  | some router => PanicOr.ok (⟨path, [], false⟩, router)
  | none =>
    PanicOr.panicked "Registering routes is not possible after the Server has started"

/-- `Server::with` (src/server.rs 116-123): `Arc::get_mut(&mut
self.middleware).expect(...)`, then push the middleware. -/
def ServerS.withMw (s : ServerS) (m : Middleware) : PanicOr ServerS :=
  match s.middleware.get_mut with
  | some list =>
    PanicOr.ok
      { s with middleware := { value := list ++ [m], shared := s.middleware.shared } }
  | none =>
    PanicOr.panicked "Registering middleware is not possible after the Server has started"

/-! ## Claim theorem: lifecycle -/

/-- C6 counterexample: the claim says that after the first dispatch has
shared the server's handles, ANY subsequent `at` is a fatal panic — but
`respond` drops its clones when it returns, so on a fresh server whose one
dispatch has completed (clone, then drop), `at` succeeds and hands out the
router instead of panicking. -/
theorem claim_C6_counterexample :
    (ServerS.new.clone).serving = true ∧
    ((ServerS.new.clone).dropClone).at "/x"
      = PanicOr.ok (⟨"/x", [], false⟩, (Router.new : Router Endpoint)) :=
  ⟨rfl, rfl⟩

/-- C6 (amended): `at` and `with` are fatal programmer errors — a panic,
never a recoverable error, never a silent mutation of the shared state —
exactly while the router/middleware handles are shared (a clone made by a
dispatch in flight or by bind/listen is still alive); while the handles are
unique they succeed, `with` appending the middleware; and a completed
dispatch (clone then drop) returns the server to its previous state. -/
theorem claim_C6_mutation_guard (s : ServerS) (path : String) (m : Middleware) :
    (s.router.shared ≠ 0 →
      s.at path = PanicOr.panicked
        "Registering routes is not possible after the Server has started") ∧
    (s.middleware.shared ≠ 0 →
      s.withMw m = PanicOr.panicked
        "Registering middleware is not possible after the Server has started") ∧
    (s.clone).serving = true ∧
    (s.clone).at path = PanicOr.panicked
      "Registering routes is not possible after the Server has started" ∧
    (s.clone).withMw m = PanicOr.panicked
      "Registering middleware is not possible after the Server has started" ∧
    (s.router.shared = 0 → s.at path = PanicOr.ok (⟨path, [], false⟩, s.router.value)) ∧
    (s.middleware.shared = 0 →
      s.withMw m = PanicOr.ok
        { s with middleware := ⟨s.middleware.value ++ [m], s.middleware.shared⟩ }) ∧
    (s.clone).dropClone = s := by
  refine ⟨?_, ?_, ?_, ?_, ?_, ?_, ?_, ?_⟩
  · intro h
    unfold ServerS.at ArcHandle.get_mut
    rw [if_neg h]
  · intro h
    unfold ServerS.withMw ArcHandle.get_mut
    rw [if_neg h]
  · unfold ServerS.serving ServerS.clone
    simp
  · unfold ServerS.at ArcHandle.get_mut ServerS.clone
    rw [if_neg (by simp)]
  · unfold ServerS.withMw ArcHandle.get_mut ServerS.clone
    rw [if_neg (by simp)]
  · intro h
    unfold ServerS.at ArcHandle.get_mut
    rw [if_pos h]
  · intro h
    unfold ServerS.withMw ArcHandle.get_mut
    rw [if_pos h]
  · show (⟨⟨s.router.value, s.router.shared + 1 - 1⟩,
      ⟨s.middleware.value, s.middleware.shared + 1 - 1⟩⟩ : ServerS) = s
    rcases s with ⟨⟨rv, rs⟩, ⟨mv, ms⟩⟩
    simp

/-- A middleware value for the C6 witness. -/
def idMw : Middleware := fun ctx k => Except.ok (k ctx)

theorem claim_C6_witness :
    (ServerS.new.clone).at "/x" = PanicOr.panicked
      "Registering routes is not possible after the Server has started" ∧
    (ServerS.new.clone).withMw idMw = PanicOr.panicked
      "Registering middleware is not possible after the Server has started" ∧
    ServerS.new.at "/x"
      = PanicOr.ok (⟨"/x", [], false⟩, (Router.new : Router Endpoint)) :=
  ⟨(claim_C6_mutation_guard ServerS.new.clone "/x" idMw).1 (by decide),
    (claim_C6_mutation_guard ServerS.new.clone "/x" idMw).2.1 (by decide),
    (claim_C6_mutation_guard ServerS.new "/x" idMw).2.2.2.2.2.1 (by decide)⟩

end Envoy
